import Mathlib

/-!
Verification development for the noctalia-cli component lifecycle manager.

The Rust sources are shallowly embedded: the persistent configuration store
(`src/config/mod.rs`), the source-resolution logic (`src/main.rs`), the
update decision and archive normalization (`src/update/shell.rs` and
`src/install/shell.rs`), distribution detection and per-family dependency
installation (`src/install/shell.rs`), and the composed elevated shell
commands (`src/update/shell.rs`, `src/install/systemd.rs`).

Filesystem, network and subprocess outcomes are passed in explicitly as
environment records; the embedded functions mirror the branching of the
source.
-/

set_option maxRecDepth 4096

/-- `SourceKind` from `src/config/mod.rs`: which upstream channel a component
tracks. Serialized lowercase. Default is `release`. -/
inductive SourceKind where
  | release
  | git
deriving DecidableEq, Repr

instance : Inhabited SourceKind := ⟨SourceKind.release⟩

/-- `ComponentConfig` from `src/config/mod.rs`: one record per component.
`version` is skipped during serialization when `none`. -/
structure ComponentConfig where
  source : SourceKind := SourceKind.release
  installed : Bool := false
  version : Option String := none
deriving DecidableEq, Repr

/-- `CliConfig.components` from `src/config/mod.rs` is a `HashMap<String,
ComponentConfig>`; we embed it as an association list with the map's
lookup/insert behaviour (first matching key wins, insert-or-update). -/
abbrev CliConfig := List (String × ComponentConfig)

/-- Map lookup: `self.components.get(component)`. -/
def getComponent (cfg : CliConfig) (component : String) : Option ComponentConfig :=
  (cfg.find? (fun e => e.1 == component)).map (fun e => e.2)

/-- The `self.components.entry(component.to_string()).or_default()` followed by
a field mutation: update the existing record, or insert a defaulted record
first. -/
def updateComponent (cfg : CliConfig) (component : String)
    (f : ComponentConfig → ComponentConfig) : CliConfig :=
  match cfg with
  | [] => [(component, f {})]
  | e :: rest =>
    if e.1 == component then (e.1, f e.2) :: rest
    else e :: updateComponent rest component f

/-- `CliConfig::set_installed` (`src/config/mod.rs:66`). -/
def set_installed (cfg : CliConfig) (component : String) (installed : Bool) : CliConfig :=
  updateComponent cfg component (fun c => { c with installed := installed })

/-- `CliConfig::set_component_source` (`src/config/mod.rs:61`). -/
def set_component_source (cfg : CliConfig) (component : String) (source : SourceKind) : CliConfig :=
  updateComponent cfg component (fun c => { c with source := source })

/-- `CliConfig::set_component_version` (`src/config/mod.rs:75`). -/
def set_component_version (cfg : CliConfig) (component : String) (version : String) : CliConfig :=
  updateComponent cfg component (fun c => { c with version := some version })

/-- `CliConfig::get_component_source` (`src/config/mod.rs:57`). -/
def get_component_source (cfg : CliConfig) (component : String) : Option SourceKind :=
  (getComponent cfg component).map (fun c => c.source)

/-- `CliConfig::get_component_version` (`src/config/mod.rs:71`). -/
def get_component_version (cfg : CliConfig) (component : String) : Option String :=
  (getComponent cfg component).bind (fun c => c.version)

/-- `self.components.get(component).map(|c| c.installed).unwrap_or(false)`. -/
def installedFlag (cfg : CliConfig) (component : String) : Bool :=
  ((getComponent cfg component).map (fun c => c.installed)).getD false

/-- The filesystem evidence consulted by `check_shell_installed`
(`src/config/mod.rs:102`): existence of `/etc/xdg/quickshell/noctalia-shell`,
the `HOME` environment variable (empty string when unset, as produced by
`unwrap_or_else`), and existence of `$HOME/.config/quickshell/noctalia-shell`. -/
structure ShellFs where
  etcXdgExists : Bool
  home : String
  homeCfgExists : Bool
deriving DecidableEq, Repr

/-- `check_shell_installed` (`src/config/mod.rs:102`): true iff the old system
path exists, or `HOME` is nonempty and the per-user path exists (an unset
`HOME` yields an empty `new_path`, which is skipped). -/
def check_shell_installed (fs : ShellFs) : Bool :=
  fs.etcXdgExists || (!(fs.home == "") && fs.homeCfgExists)

/-- `CliConfig::is_component_installed` (`src/config/mod.rs:80`) together with
its self-repair side effect. The first component is the returned boolean; the
second is the on-disk config after the call (the method reloads the config from
disk and persists `installed = true` when the filesystem shows the shell
installed but the record does not). For taking the snapshot the in-memory
`self` and the on-disk state coincide, as they do at every call site. -/
def is_component_installed_effect (cfg : CliConfig) (component : String)
    (fs : ShellFs) : Bool × CliConfig :=
  if component == "shell" then
    let filesystem_installed := check_shell_installed fs
    let config_installed := installedFlag cfg "shell"
    let disk :=
      if filesystem_installed && !config_installed then set_installed cfg "shell" true
      else cfg
    (filesystem_installed, disk)
  else
    (installedFlag cfg component, cfg)

/-- The value returned by `CliConfig::is_component_installed`. -/
def is_component_installed (cfg : CliConfig) (component : String) (fs : ShellFs) : Bool :=
  (is_component_installed_effect cfg component fs).1

/-- The on-disk config after a call to `CliConfig::is_component_installed`
(the reconciliation rule of `src/config/mod.rs:87-92`). -/
def reconcileShell (cfg : CliConfig) (fs : ShellFs) : CliConfig :=
  (is_component_installed_effect cfg "shell" fs).2

/-- The update decision of `update::shell::run` (`src/update/shell.rs:77` and
`:91`): `installed_version.as_ref().map(|v| v != &latest).unwrap_or(true)`. -/
def needs_update (installed_version : Option String) (latest : String) : Bool :=
  (installed_version.map (fun v => v != latest)).getD true

/-- Outcome of `resolve_source` (`src/main.rs:155`). `outcome` is either the
process exit code (the `std::process::exit(2)` branch) or the resolved kind;
`persisted` records the source written back to disk by
`prompt_and_persist_choice`, or `none` when no state was mutated. -/
structure ResolveResult where
  outcome : Except Nat SourceKind
  persisted : Option SourceKind
deriving Repr

/-- The selection returned by the interactive prompt in
`prompt_and_persist_choice` (`src/main.rs:170`): `none` models
`interact_opt()` returning `Err`, `some none` models `Ok(None)`, and
`some (some i)` models `Ok(Some(i))`. -/
abbrev PromptSelection := Option (Option Nat)

/-- `resolve_source` (`src/main.rs:155`) together with the persistence done by
`prompt_and_persist_choice` (`src/main.rs:170`). -/
def resolve_source (git release : Bool) (saved : Option SourceKind)
    (selection : PromptSelection) : ResolveResult :=
  if git && release then ⟨Except.error 2, none⟩
  else if git then ⟨Except.ok SourceKind.git, none⟩
  else if release then ⟨Except.ok SourceKind.release, none⟩
  else
    match saved with
    | some s => ⟨Except.ok s, none⟩
    | none =>
      let chosen :=
        match selection with
        | some (some idx) => if idx == 1 then SourceKind.git else SourceKind.release
        | _ => SourceKind.release
      ⟨Except.ok chosen, some chosen⟩

/-- Outcomes of the effectful steps driven by `install::shell::run`
(`src/install/shell.rs:15`): the dependency installation, the two metadata
fetches, and the download-and-extract step. A `.error` models the
corresponding Rust `Err`. -/
structure InstallEnv where
  deps : Except String Unit
  fetchGitSha : Except String String
  fetchReleaseTag : Except String String
  downloadExtract : Except String Unit

/-- `install::shell::run` (`src/install/shell.rs:15-85`) as a function of the
step outcomes. Returns the process exit code (`some 1` models
`std::process::exit(1)`, `none` a normal return) and the on-disk config after
the run, starting from `cfg` as the state persisted before the call. -/
def install_run (source : SourceKind) (env : InstallEnv) (cfg : CliConfig) :
    Option Nat × CliConfig :=
  match env.deps with
  | Except.error _ => (some 1, cfg)
  | Except.ok _ =>
    let fetched :=
      match source with
      | SourceKind.git => env.fetchGitSha
      | SourceKind.release => env.fetchReleaseTag
    match fetched with
    | Except.error _ => (some 1, cfg)
    | Except.ok version =>
      match env.downloadExtract with
      | Except.error _ => (some 1, cfg)
      | Except.ok _ =>
        let cfg1 := set_component_source cfg "shell" source
        let cfg2 := set_installed cfg1 "shell" true
        let cfg3 := set_component_version cfg2 "shell" version
        (none, cfg3)

/-- Outcomes of the effectful steps driven by `update::shell::run`
(`src/update/shell.rs:36`): the filesystem state consulted by the initial
installed check, the metadata fetches, and the download-and-extract step. -/
structure UpdateEnv where
  fs : ShellFs
  fetchGitSha : Except String String
  fetchReleaseTag : Except String String
  downloadExtract : Except String Unit

/-- `update::shell::run` (`src/update/shell.rs:36-131`) as a function of the
step outcomes. Returns the exit code (`some 1` for `exit(1)`, `none` for a
normal return) and the on-disk config after the run, starting from `cfg`.
The initial `is_component_installed("shell")` call both decides the
not-installed early exit and applies the config self-repair to disk. -/
def update_run (source : SourceKind) (env : UpdateEnv) (cfg : CliConfig) :
    Option Nat × CliConfig :=
  let installedNow := is_component_installed cfg "shell" env.fs
  let disk1 := reconcileShell cfg env.fs
  if !installedNow then (some 1, disk1)
  else
    let installed_version := get_component_version cfg "shell"
    let fetched :=
      match source with
      | SourceKind.git => env.fetchGitSha
      | SourceKind.release => env.fetchReleaseTag
    match fetched with
    | Except.error _ => (some 1, disk1)
    | Except.ok latest =>
      if !(needs_update installed_version latest) then (none, disk1)
      else
        match env.downloadExtract with
        | Except.error _ => (some 1, disk1)
        | Except.ok _ =>
          let d1 := set_component_source disk1 "shell" source
          let d2 := set_component_version d1 "shell" latest
          (none, d2)

/-- The per-distro package mapping rows of `get_package_mapping`
(`src/install/shell.rs:290`): `(generic_name, distro_specific_name)`, where
`none` means the package is unavailable in the distribution's repositories. -/
abbrev PackageMap := List (String × Option String)

/-- The partition loop shared by the per-family installers
(`src/install/shell.rs:358`, `:427`, ...): walk the mapping in order, skip
packages the native query reports installed, collect the rest into
`to_install`, and collect unmapped generic names into `missing`. -/
def partitionPkgs (pm : PackageMap) (queryInstalled : String → Bool) :
    List String × List String :=
  pm.foldl
    (fun acc row =>
      match row.2 with
      | some pkg => if queryInstalled pkg then acc else (acc.1 ++ [pkg], acc.2)
      | none => (acc.1, acc.2 ++ [row.1]))
    ([], [])

/-- Result of a per-family package installation run: the Rust return value,
the list of unavailable names reported just before the failure (empty when no
such report happened), and the package list handed to the native install
command (empty when no install command was invoked). -/
structure PkgInstallResult where
  res : Except String Unit
  reportedMissing : List String
  installArgs : List String
deriving Repr

/-- Environment for `install_arch_packages` (`src/install/shell.rs:345`):
which AUR helper (if any) responds to `--version`, the `pacman -Q` verdicts,
and whether the helper's install command succeeds. -/
structure ArchEnv where
  aurHelper : Option String
  pacmanInstalled : String → Bool
  helperSuccess : Bool

/-- `install_arch_packages` (`src/install/shell.rs:345-421`). -/
def install_arch_packages (pm : PackageMap) (env : ArchEnv) : PkgInstallResult :=
  let parts := partitionPkgs pm env.pacmanInstalled
  let to_install := parts.1
  let missing := parts.2
  if !missing.isEmpty then
    ⟨Except.error "Some required packages are not available in repositories", missing, []⟩
  else if to_install.isEmpty then ⟨Except.ok (), [], []⟩
  else
    match env.aurHelper with
    | some _ =>
      if env.helperSuccess then ⟨Except.ok (), [], to_install⟩
      else ⟨Except.error "Failed to install packages", [], to_install⟩
    | none => ⟨Except.error "No AUR helper available to install packages", [], []⟩

/-- Environment for `install_fedora_packages` (`src/install/shell.rs:423`):
the `rpm -q` verdicts, the answer to the COPR confirmation prompt (already
defaulted to `false` on a failed prompt, as `unwrap_or(false)` does), whether
`dnf copr enable` succeeds, and whether the final `dnf install` succeeds. -/
structure FedoraEnv where
  rpmInstalled : String → Bool
  promptAccept : Bool
  coprSuccess : Bool
  dnfSuccess : Bool

/-- `install_fedora_packages` (`src/install/shell.rs:423-512`), including the
quickshell COPR exception: when `quickshell` is among the unavailable names,
an accepted and successful repository enable moves it from `missing` to the
end of `to_install`; a declined prompt leaves it missing; a failed enable
aborts immediately. -/
def install_fedora_packages (pm : PackageMap) (env : FedoraEnv) : PkgInstallResult :=
  let parts := partitionPkgs pm env.rpmInstalled
  let to_install := parts.1
  let missing := parts.2
  let afterCopr : Except String (List String × List String) :=
    if missing.contains "quickshell" then
      if env.promptAccept then
        if env.coprSuccess then
          Except.ok (to_install ++ ["quickshell"], missing.filter (fun x => x != "quickshell"))
        else Except.error "Failed to enable COPR repository"
      else Except.ok (to_install, missing)
    else Except.ok (to_install, missing)
  match afterCopr with
  | Except.error e => ⟨Except.error e, [], []⟩
  | Except.ok (ti, miss) =>
    if !miss.isEmpty then
      ⟨Except.error "Some required packages are not available in repositories", miss, []⟩
    else if ti.isEmpty then ⟨Except.ok (), [], []⟩
    else if env.dnfSuccess then ⟨Except.ok (), [], ti⟩
    else ⟨Except.error "Failed to install packages with dnf", [], ti⟩

/-- The Fedora row of `get_package_mapping` (`src/install/shell.rs:299`):
`quickshell` has no default-repository package. -/
def fedoraPackageMap : PackageMap :=
  [("quickshell", none),
   ("gpu-screen-recorder", some "gpu-screen-recorder"),
   ("brightnessctl", some "brightnessctl")]

/-- The Arch row of `get_package_mapping` (`src/install/shell.rs:294`). -/
def archPackageMap : PackageMap :=
  [("quickshell", some "quickshell"),
   ("gpu-screen-recorder", some "gpu-screen-recorder"),
   ("brightnessctl", some "brightnessctl")]

/-- The single-quote character, written via its code point. -/
def qc : Char := Char.ofNat 39

/-- The double-quote character, written via its code point. -/
def dq : Char := Char.ofNat 34

/-- The backslash character, written via its code point. -/
def bsl : Char := Char.ofNat 92

/-- Character list of a string literal. -/
def lit (s : String) : List Char := s.data

/-- Split a character sequence at newline characters; the result always has at
least one (possibly empty) line. Models line-by-line processing of file
contents. -/
def splitLines (cs : List Char) : List (List Char) :=
  match cs with
  | [] => [[]]
  | c :: rest =>
    match splitLines rest with
    | [] => [[]]
    | l :: ls => if c = '\n' then [] :: l :: ls else (c :: l) :: ls

/-- Strip one trailing carriage return, as Rust's `str::lines` does. -/
def stripCR (l : List Char) : List Char :=
  if l.getLast? = some '\r' then l.dropLast else l

/-- The lines seen by a `content.lines()` loop. -/
def contentLines (cs : List Char) : List (List Char) :=
  (splitLines cs).map stripCR

/-- Rust `str::trim_matches(c)`: repeatedly remove the character from both
ends. -/
def trimMatchesChar (c : Char) (s : List Char) : List Char :=
  ((s.dropWhile (fun x => x == c)).reverse.dropWhile (fun x => x == c)).reverse

/-- Fuelled worker for `trimStartMatchesL`; the fuel bounds the number of
removed pattern copies, so `s.length` is always enough. -/
def trimStartMatchesAux (fuel : Nat) (pat s : List Char) : List Char :=
  match fuel with
  | 0 => s
  | fuel + 1 =>
    if pat ≠ [] ∧ pat.isPrefixOf s then trimStartMatchesAux fuel pat (s.drop pat.length)
    else s

/-- Rust `str::trim_start_matches(pat)`: repeatedly remove the leading
occurrences of the pattern. -/
def trimStartMatchesL (pat : List Char) (s : List Char) : List Char :=
  trimStartMatchesAux s.length pat s

/-- The value cleanup applied to `ID` and `ID_LIKE` in `detect_distribution`
(`src/install/shell.rs:237`, `:240`):
`trim_matches('"').trim_matches('\x27')` after stripping the field prefix. -/
def cleanOsReleaseValue (pre : List Char) (line : List Char) : List Char :=
  trimMatchesChar qc (trimMatchesChar dq (trimStartMatchesL pre line))

/-- One iteration of the field-scanning loop of `detect_distribution`
(`src/install/shell.rs:235-243`): later occurrences overwrite earlier ones. -/
def scanOsReleaseLine (acc : Option (List Char) × Option (List Char))
    (line : List Char) : Option (List Char) × Option (List Char) :=
  if (lit "ID=").isPrefixOf line then
    (some (cleanOsReleaseValue (lit "ID=") line), acc.2)
  else if (lit "ID_LIKE=").isPrefixOf line then
    (acc.1, some (cleanOsReleaseValue (lit "ID_LIKE=") line))
  else acc

/-- The `ID`/`ID_LIKE` extraction of `detect_distribution`
(`src/install/shell.rs:230-243`). -/
def parseOsRelease (content : List Char) : Option (List Char) × Option (List Char) :=
  (contentLines content).foldl scanOsReleaseLine (none, none)

/-- `Distribution` (`src/install/shell.rs:218`). -/
inductive Distribution where
  | arch
  | fedora
  | debian
  | gentoo
  | void
  | unknown
deriving DecidableEq, Repr

/-- The `ID` allow-list for the Arch family (`src/install/shell.rs:249`). -/
def archIds : List (List Char) :=
  [lit "arch", lit "archlinux", lit "archarm", lit "archcraft", lit "cachyos",
   lit "Nyarch", lit "endeavouros", lit "manjaro", lit "manjaro-arm",
   lit "arcolinux", lit "artix", lit "garuda", lit "parabola"]

/-- The exact-`ID` match of `detect_distribution` (`src/install/shell.rs:246-257`). -/
def matchId (id : List Char) : Option Distribution :=
  if archIds.contains id then some Distribution.arch
  else if id = lit "void" then some Distribution.void
  else if id = lit "fedora" then some Distribution.fedora
  else if id = lit "debian" then some Distribution.debian
  else if id = lit "ubuntu" then some Distribution.debian
  else if id = lit "gentoo" then some Distribution.gentoo
  else none

/-- Rust `str::contains(pat)`: the pattern occurs as a contiguous substring. -/
def containsSub (pat : List Char) : List Char → Bool
  | [] => pat.isEmpty
  | c :: rest => pat.isPrefixOf (c :: rest) || containsSub pat rest

/-- The `ID_LIKE` substring checks of `detect_distribution`
(`src/install/shell.rs:260-270`). -/
def matchIdLike (idLike : List Char) : Option Distribution :=
  if containsSub (lit "arch") idLike then some Distribution.arch
  else if containsSub (lit "debian") idLike || containsSub (lit "ubuntu") idLike then
    some Distribution.debian
  else if containsSub (lit "fedora") idLike then some Distribution.fedora
  else none

/-- The marker-file existence set consulted by the fallback of
`detect_distribution` (`src/install/shell.rs:274-285`). -/
structure Markers where
  archRelease : Bool
  fedoraRelease : Bool
  redhatRelease : Bool
  debianVersion : Bool
  gentooRelease : Bool
deriving DecidableEq, Repr

/-- The marker-file fallback of `detect_distribution`
(`src/install/shell.rs:274-287`). -/
def markerFallback (m : Markers) : Distribution :=
  if m.archRelease then Distribution.arch
  else if m.fedoraRelease || m.redhatRelease then Distribution.fedora
  else if m.debianVersion then Distribution.debian
  else if m.gentooRelease then Distribution.gentoo
  else Distribution.unknown

/-- The decision taken once `ID` and `ID_LIKE` have been extracted: exact `ID`
match first, then `ID_LIKE` substring checks, then the marker-file fallback. -/
def detectFromFields (id idLike : Option (List Char)) (m : Markers) : Distribution :=
  match (id.bind matchId) with
  | some d => d
  | none =>
    match (idLike.bind matchIdLike) with
    | some d => d
    | none => markerFallback m

/-- `detect_distribution` (`src/install/shell.rs:228-288`) as a function of the
`/etc/os-release` content (`none` when the file cannot be read) and the marker
files. -/
def detect_distribution (osRelease : Option (List Char)) (m : Markers) : Distribution :=
  match osRelease with
  | some content =>
    let fields := parseOsRelease content
    detectFromFields fields.1 fields.2 m
  | none => markerFallback m

/-- A top-level filesystem entry of the extraction target: a plain file (any
non-directory entry) or a directory with its children. -/
inductive Entry where
  | file (name : String) : Entry
  | dir (name : String) (children : List Entry) : Entry

/-- The entry's file name. -/
def Entry.name : Entry → String
  | Entry.file n => n
  | Entry.dir n _ => n

/-- Whether the entry is a directory (`Path::is_dir`). -/
def Entry.isDir : Entry → Bool
  | Entry.file _ => false
  | Entry.dir _ _ => true

/-- The git-main wrapper directory name `noctalia-shell-main` hard-coded in
both `extract` functions (`src/install/shell.rs:187`,
`src/update/shell.rs:261/327`). -/
def wrapperDirName : String := "noctalia-shell-main"

/-- Remove the entry of the given name from a directory listing
(`fs::remove_dir` on an emptied directory). -/
def removeName (n : String) (es : List Entry) : List Entry :=
  es.filter (fun e => e.name != n)

/-- `fs::rename(entry.path(), target.join(entry.file_name()))` for each moved
entry in order: the destination name is overwritten if present, and the entry
appears in the target listing. -/
def moveAllInto (cs : List Entry) (target : List Entry) : List Entry :=
  cs.foldl (fun acc c => removeName c.name acc ++ [c]) target

/-- The top-level normalization performed at the end of `extract`
(`src/install/shell.rs:186-213`; the same logic appears at
`src/update/shell.rs:326-353` and, staged in a temporary directory, at
`src/update/shell.rs:260-299`): given the top-level entries of the target
directory right after `archive.unpack`, produce the entries after the
strip-one-component step. If an entry named `noctalia-shell-main` exists, its
children are moved up and the wrapper removed — but if that entry is not a
directory the `fs::read_dir` call fails and the error propagates. Otherwise,
when exactly one entry exists and it is a directory, that directory is
flattened the same way; in every other case the listing is untouched. -/
def extract_normalize (entries : List Entry) : Except String (List Entry) :=
  match entries.find? (fun e => e.name == wrapperDirName) with
  | some (Entry.dir _ cs) =>
    Except.ok (removeName wrapperDirName (moveAllInto cs entries))
  | some (Entry.file _) => Except.error "read_dir: not a directory"
  | none =>
    match entries with
    | [Entry.dir n cs] => Except.ok (removeName n (moveAllInto cs [Entry.dir n cs]))
    | _ => Except.ok entries

/-- The single-quote character as a one-character string. -/
def sqS : String := String.mk [qc]

/-- The elevated command composed by the privileged branch of the update
`extract` (`src/update/shell.rs:304`):
`format!("cp -r {t}/* {g}/ && rm -rf {t}")` with each hole wrapped in plain
single quotes exactly as the format string does. -/
def composeUpdateCmd (tempTarget target : String) : String :=
  "cp -r " ++ sqS ++ tempTarget ++ sqS ++ "/* " ++ sqS ++ target ++ sqS ++
  "/ && rm -rf " ++ sqS ++ tempTarget ++ sqS

/-- `target_dir` in `install::systemd::run` (`src/install/systemd.rs:77`). -/
def systemdTargetDir : String := "/usr/lib/systemd/user"

/-- `target_file` in `install::systemd::run` (`src/install/systemd.rs:78`). -/
def systemdTargetFile : String := systemdTargetDir ++ "/noctalia.service"

/-- The elevated command composed by `install::systemd::run`
(`src/install/systemd.rs:82-85`). -/
def composeSystemdCmd (serviceFile : String) : String :=
  "mkdir -p " ++ sqS ++ systemdTargetDir ++ sqS ++ " && cp " ++ sqS ++ serviceFile ++
  sqS ++ " " ++ sqS ++ systemdTargetFile ++ sqS ++ " && chmod 644 " ++ sqS ++
  systemdTargetFile ++ sqS

/-- Modelled from the spec: the POSIX single-quote escaping idiom the spec
claims for every embedded path — close the quote, emit a backslash-escaped
quote, reopen the quote — applied to each single quote of the path. -/
def posixEscape : List Char → List Char
  | [] => []
  | c :: rest => (if c = qc then [qc, bsl, qc, qc] else [c]) ++ posixEscape rest

/-- Modelled from the spec: a path single-quote-escaped with the `POSIX`
idiom. -/
def posixQuote (s : String) : String :=
  sqS ++ String.mk (posixEscape s.data) ++ sqS

/-- A POSIX shell word splitter restricted to the constructs the composed
commands use: unquoted characters accumulate into the current field, spaces
separate fields, and single quotes delimit fully literal regions. Returns
`none` on an unterminated quote. Used to state what a `sh -c` invocation
makes of a composed command. -/
def shLex : List Char → Bool → Option (List Char) → Option (List (List Char))
  | [], false, none => some []
  | [], false, some f => some [f]
  | [], true, _ => none
  | c :: rest, true, f =>
    if c = qc then shLex rest false (some (f.getD []))
    else shLex rest true (some (f.getD [] ++ [c]))
  | c :: rest, false, f =>
    if c = qc then shLex rest true (some (f.getD []))
    else if c = ' ' then
      match f with
      | none => shLex rest false none
      | some fld => (shLex rest false none).map (fun t => fld :: t)
    else shLex rest false (some (f.getD [] ++ [c]))

/-- The fields a POSIX shell extracts from a command string. -/
def shFields (s : String) : Option (List (List Char)) :=
  shLex s.data false none

/-- TOML basic-string escaping for one character: double quotes, backslashes
and newlines are escaped, everything else is literal. -/
def escapeChar (c : Char) : List Char :=
  if c = dq then [bsl, dq]
  else if c = bsl then [bsl, bsl]
  else if c = '\n' then [bsl, 'n']
  else [c]

/-- TOML basic-string escaping of a character sequence. -/
def escapeStr : List Char → List Char
  | [] => []
  | c :: rest => escapeChar c ++ escapeStr rest

/-- Inverse of the TOML basic-string escaping: a backslash consumes the next
character (`n` maps back to a newline), other characters are literal. -/
def unescapeStr : List Char → List Char
  | [] => []
  | c :: rest =>
    if c = bsl then
      match rest with
      | [] => []
      | d :: rest2 => (if d = 'n' then '\n' else d) :: unescapeStr rest2
    else c :: unescapeStr rest

/-- Characters allowed in a bare TOML key. -/
def isBareKeyChar (c : Char) : Bool :=
  c.isAlphanum || c = '_' || c = '-'

/-- A component name as a TOML key: bare when possible, quoted-and-escaped
otherwise. -/
def emitKey (k : List Char) : List Char :=
  if k ≠ [] ∧ k.all isBareKeyChar then k else dq :: (escapeStr k ++ [dq])

/-- The table-header prefix of a serialized component. -/
def headerPre : List Char := lit "[components."

/-- Recover the component name from a serialized table-header key. -/
def parseKeyPart (m : List Char) : List Char :=
  match m with
  | [] => []
  | c :: rest => if c = dq then unescapeStr rest.dropLast else m

/-- Recognize a component table-header line and extract the component name. -/
def parseHeaderLine (l : List Char) : Option (List Char) :=
  if headerPre.isPrefixOf l then
    let m := l.drop headerPre.length
    match m.getLast? with
    | some c => if c = ']' then some (parseKeyPart m.dropLast) else none
    | none => none
  else none

/-- The serialized form of a `SourceKind` (serde `rename_all = "lowercase"`,
`src/config/mod.rs:7`). -/
def sourceText : SourceKind → List Char
  | SourceKind.release => lit "release"
  | SourceKind.git => lit "git"

/-- The lines of one serialized component record: a table header, the
`source` and `installed` fields, and a `version` field only when present
(serde `skip_serializing_if = "Option::is_none"`, `src/config/mod.rs:30`).
This models the TOML document `CliConfig::save` (`src/config/mod.rs:51`)
writes through `toml::to_string_pretty`. -/
def emitComponent (k : String) (c : ComponentConfig) : List (List Char) :=
  (headerPre ++ emitKey k.data ++ [']']) ::
  (lit "source = " ++ dq :: (sourceText c.source ++ [dq])) ::
  (lit "installed = " ++ (if c.installed then lit "true" else lit "false")) ::
  (match c.version with
   | none => []
   | some v => [lit "version = " ++ dq :: (escapeStr v.data ++ [dq])])

/-- The lines of a serialized `CliConfig`, component after component. -/
def emitLines : CliConfig → List (List Char)
  | [] => []
  | e :: rest => emitComponent e.1 e.2 ++ emitLines rest

/-- Join lines with newline separators. -/
def joinLines : List (List Char) → List Char
  | [] => []
  | [l] => l
  | l :: ls => l ++ '\n' :: joinLines ls

/-- The document `CliConfig::save` writes for a given state. -/
def emitConfig (cfg : CliConfig) : List Char :=
  joinLines (emitLines cfg)

/-- Apply one field line to a component record being deserialized; unknown or
malformed lines leave the record unchanged (field-level defaulting). -/
def applyFieldLine (c : ComponentConfig) (l : List Char) : ComponentConfig :=
  if (lit "source = " ++ [dq]).isPrefixOf l ∧ l.getLast? = some dq then
    let v := (l.drop (lit "source = " ++ [dq]).length).dropLast
    if v = lit "release" then { c with source := SourceKind.release }
    else if v = lit "git" then { c with source := SourceKind.git }
    else c
  else if (lit "installed = ").isPrefixOf l then
    let v := l.drop (lit "installed = ").length
    if v = lit "true" then { c with installed := true }
    else if v = lit "false" then { c with installed := false }
    else c
  else if (lit "version = " ++ [dq]).isPrefixOf l ∧ l.getLast? = some dq then
    { c with version := some (String.mk (unescapeStr
        ((l.drop (lit "version = " ++ [dq]).length).dropLast))) }
  else c

/-- Deserialize the line sequence of a config document: each table header
opens a defaulted record (`#[derive(Default)]`) whose following field lines
are folded in. Models the `toml::from_str` deserialization into `CliConfig`
performed by `CliConfig::load` (`src/config/mod.rs:44`). -/
def parseComponents : List (List Char) → CliConfig
  | [] => []
  | l :: ls =>
    match parseHeaderLine l with
    | some k =>
      (String.mk k,
        (ls.takeWhile (fun l2 => (parseHeaderLine l2).isNone)).foldl applyFieldLine {}) ::
        parseComponents (ls.dropWhile (fun l2 => (parseHeaderLine l2).isNone))
    | none => parseComponents ls
termination_by ls => ls.length
decreasing_by
  · have key : ∀ (p : List Char → Bool) (xs : List (List Char)),
        (xs.dropWhile p).length ≤ xs.length := by
      intro p xs
      induction xs with
      | nil => simp [List.dropWhile]
      | cons x xs ih =>
        rw [List.dropWhile]
        cases p x with
        | true => simpa using Nat.le_succ_of_le ih
        | false => simp
    exact Nat.lt_succ_of_le (key _ _)
  · exact Nat.lt_succ_self _

/-- The state `CliConfig::load` reads back from a saved document. -/
def loadConfig (content : List Char) : CliConfig :=
  parseComponents (splitLines content)


theorem getComponent_updateComponent_self (cfg : CliConfig) (n : String)
    (f : ComponentConfig → ComponentConfig) :
    getComponent (updateComponent cfg n f) n = some (f ((getComponent cfg n).getD {})) := by
  induction cfg with
  | nil => simp [updateComponent, getComponent]
  | cons e rest ih =>
    by_cases h : e.1 = n
    · simp [updateComponent, getComponent, h]
    · have hb : (e.1 == n) = false := by simpa using h
      simp only [updateComponent, getComponent, List.find?, hb] at ih ⊢
      simpa [hb] using ih

theorem getComponent_updateComponent_ne (cfg : CliConfig) (n m : String)
    (f : ComponentConfig → ComponentConfig) (h : n ≠ m) :
    getComponent (updateComponent cfg n f) m = getComponent cfg m := by
  induction cfg with
  | nil => simp [updateComponent, getComponent, h]
  | cons e rest ih =>
    by_cases he : e.1 = n
    · have hbn : (e.1 == n) = true := by simpa using he
      have hbm : (e.1 == m) = false := by
        simp only [beq_eq_false_iff_ne, ne_eq]
        intro hem
        exact h (he ▸ hem ▸ rfl)
      simp [updateComponent, getComponent, List.find?, hbn, hbm]
    · have hbn : (e.1 == n) = false := by simpa using he
      by_cases hm : e.1 = m
      · have hbm : (e.1 == m) = true := by simpa using hm
        simp [updateComponent, getComponent, List.find?, hbn, hbm]
      · have hbm : (e.1 == m) = false := by simpa using hm
        simp only [updateComponent, getComponent, List.find?, hbn, hbm] at ih ⊢
        simpa [hbn, hbm] using ih

theorem installedFlag_set_installed_self (cfg : CliConfig) (n : String) (b : Bool) :
    installedFlag (set_installed cfg n b) n = b := by
  simp [installedFlag, set_installed, getComponent_updateComponent_self]

theorem installedFlag_set_installed_ne (cfg : CliConfig) (n m : String) (b : Bool)
    (h : n ≠ m) : installedFlag (set_installed cfg n b) m = installedFlag cfg m := by
  simp [installedFlag, set_installed, getComponent_updateComponent_ne _ _ _ _ h]

/-- Claim C1 (amended): for every component other than `shell`,
`set_installed(name, true)` followed by `is_component_installed(name)` returns
true; for `shell` the returned value equals the filesystem evidence regardless
of the record, so the round trip can yield false when no filesystem copy
exists; and the reconciliation performed by `is_component_installed` never
changes any record's installed flag from true to false. -/
theorem C1_set_then_get_installed :
    (∀ (name : String) (cfg : CliConfig) (fs : ShellFs), name ≠ "shell" →
      is_component_installed (set_installed cfg name true) name fs = true) ∧
    (∀ (cfg : CliConfig) (fs : ShellFs),
      is_component_installed (set_installed cfg "shell" true) "shell" fs =
        check_shell_installed fs) ∧
    (∀ (cfg : CliConfig) (fs : ShellFs) (name : String),
      installedFlag cfg name = true →
      installedFlag (reconcileShell cfg fs) name = true) := by
  refine ⟨?_, ?_, ?_⟩
  · intro name cfg fs hname
    have hb : (name == "shell") = false := by simpa using hname
    simp [is_component_installed, is_component_installed_effect, hb,
      installedFlag_set_installed_self]
  · intro cfg fs
    rfl
  · intro cfg fs name hflag
    show installedFlag (is_component_installed_effect cfg "shell" fs).2 name = true
    have hred : (is_component_installed_effect cfg "shell" fs).2 =
        if check_shell_installed fs && !installedFlag cfg "shell"
        then set_installed cfg "shell" true else cfg := rfl
    rw [hred]
    by_cases hc : (check_shell_installed fs && !installedFlag cfg "shell") = true
    · rw [if_pos hc]
      by_cases hn : name = "shell"
      · subst hn
        exact installedFlag_set_installed_self cfg "shell" true
      · rw [installedFlag_set_installed_ne cfg "shell" name true (fun hh => hn hh.symm)]
        exact hflag
    · rw [if_neg hc]
      exact hflag

/-- Witness for C1: concrete instances of all three conjuncts. -/
theorem C1_set_then_get_installed_witness :
    is_component_installed (set_installed [] "other" true) "other" ⟨false, "", false⟩ = true ∧
    is_component_installed (set_installed [] "shell" true) "shell" ⟨true, "/home/u", true⟩ =
      check_shell_installed ⟨true, "/home/u", true⟩ ∧
    installedFlag
      (reconcileShell [("shell", ⟨SourceKind.release, true, none⟩)] ⟨false, "", false⟩)
      "shell" = true :=
  ⟨C1_set_then_get_installed.1 "other" [] ⟨false, "", false⟩ (by decide),
   C1_set_then_get_installed.2.1 [] ⟨true, "/home/u", true⟩,
   C1_set_then_get_installed.2.2 [("shell", ⟨SourceKind.release, true, none⟩)]
     ⟨false, "", false⟩ "shell" (by decide)⟩

/-- Counterexample for C1 as stated: for the `shell` component with no
filesystem copy present, `set_installed("shell", true)` followed by
`is_component_installed("shell")` returns false, not true. -/
theorem C1_counterexample :
    is_component_installed (set_installed [] "shell" true) "shell" ⟨false, "", false⟩ =
      false := by
  decide

/-- Claim C2: the update decision. With a persisted version equal to the
fetched identifier `needs_update` is false; with a differing persisted version
it is true; with no persisted version it is true unconditionally. -/
theorem C2_needs_update_decision (v l : String) :
    needs_update (some v) v = false ∧
    (v ≠ l → needs_update (some v) l = true) ∧
    needs_update none l = true := by
  refine ⟨?_, ?_, rfl⟩
  · simp [needs_update]
  · intro h
    simp [needs_update, bne_iff_ne, h]

/-- Witness for C2 at concrete versions. -/
theorem C2_needs_update_decision_witness :
    needs_update (some "v1.2.0") "v1.2.0" = false ∧
    needs_update (some "v1.2.0") "v1.3.0" = true ∧
    needs_update none "v1.2.0" = true :=
  ⟨(C2_needs_update_decision "v1.2.0" "v1.3.0").1,
   (C2_needs_update_decision "v1.2.0" "v1.3.0").2.1 (by decide),
   (C2_needs_update_decision "v1.2.0" "v1.3.0").2.2⟩

/-- Claim C4: source resolution. Both flags exit with code 2 and persist
nothing, independent of the persisted source; one flag decides alone,
independent of the persisted source; the persisted source decides when
neither flag is given. -/
theorem C4_resolve_source_precedence (saved : Option SourceKind) (sel : PromptSelection) :
    resolve_source true true saved sel = ⟨Except.error 2, none⟩ ∧
    resolve_source true false saved sel = ⟨Except.ok SourceKind.git, none⟩ ∧
    resolve_source false true saved sel = ⟨Except.ok SourceKind.release, none⟩ ∧
    (∀ s : SourceKind, resolve_source false false (some s) sel = ⟨Except.ok s, none⟩) :=
  ⟨rfl, rfl, rfl, fun _ => rfl⟩

/-- Claim C10: for the `shell` component the installed answer is the
filesystem evidence alone — for every record state it equals
`check_shell_installed`, and in particular a record with `installed = true`
and no filesystem copy yields false. -/
theorem C10_shell_installed_is_filesystem_only :
    (∀ (cfg : CliConfig) (fs : ShellFs),
      is_component_installed cfg "shell" fs = check_shell_installed fs) ∧
    is_component_installed [("shell", ⟨SourceKind.release, true, none⟩)] "shell"
      ⟨false, "", false⟩ = false :=
  ⟨fun _ _ => rfl, by decide⟩


/-- Claim C5 (amended): for the install command the config record is written
only after dependency check, fetch and download/extract have all succeeded,
and a failure at any earlier step exits with code 1 leaving the persisted
state untouched. The update command behaves the same way with one exception
the claim does not cover: its initial installed check may already repair the
record's installed flag from false to true when a filesystem copy exists
(`reconcileShell`); apart from that repair, failures leave the state
unchanged, and the final persist happens only after a successful
download/extract. Every pipeline conjunct is established for both source
kinds: the git arms and the release arms of the cited `match source` code. -/
theorem C5_persist_only_after_success :
    (∀ (src : SourceKind) (cfg : CliConfig) (e : String) (fg fr : Except String String)
        (dl : Except String Unit),
      install_run src ⟨Except.error e, fg, fr, dl⟩ cfg = (some 1, cfg)) ∧
    (∀ (cfg : CliConfig) (e : String) (fr : Except String String) (dl : Except String Unit),
      install_run SourceKind.git ⟨Except.ok (), Except.error e, fr, dl⟩ cfg = (some 1, cfg)) ∧
    (∀ (cfg : CliConfig) (e : String) (fg : Except String String) (dl : Except String Unit),
      install_run SourceKind.release ⟨Except.ok (), fg, Except.error e, dl⟩ cfg =
        (some 1, cfg)) ∧
    (∀ (cfg : CliConfig) (v e : String) (fr : Except String String),
      install_run SourceKind.git ⟨Except.ok (), Except.ok v, fr, Except.error e⟩ cfg =
        (some 1, cfg)) ∧
    (∀ (cfg : CliConfig) (v : String) (fr : Except String String),
      install_run SourceKind.git ⟨Except.ok (), Except.ok v, fr, Except.ok ()⟩ cfg =
        (none, set_component_version
          (set_installed (set_component_source cfg "shell" SourceKind.git) "shell" true)
          "shell" v)) ∧
    (∀ (cfg : CliConfig) (v : String) (fg : Except String String),
      install_run SourceKind.release ⟨Except.ok (), fg, Except.ok v, Except.ok ()⟩ cfg =
        (none, set_component_version
          (set_installed (set_component_source cfg "shell" SourceKind.release) "shell" true)
          "shell" v)) ∧
    (∀ (src : SourceKind) (fs : ShellFs) (fg fr : Except String String)
        (dl : Except String Unit) (cfg : CliConfig),
      check_shell_installed fs = false →
      update_run src ⟨fs, fg, fr, dl⟩ cfg = (some 1, cfg)) ∧
    (∀ (fs : ShellFs) (e : String) (fr : Except String String) (dl : Except String Unit)
        (cfg : CliConfig),
      check_shell_installed fs = true →
      update_run SourceKind.git ⟨fs, Except.error e, fr, dl⟩ cfg =
        (some 1, reconcileShell cfg fs)) ∧
    (∀ (fs : ShellFs) (v : String) (fr : Except String String) (dl : Except String Unit)
        (cfg : CliConfig),
      check_shell_installed fs = true →
      needs_update (get_component_version cfg "shell") v = false →
      update_run SourceKind.git ⟨fs, Except.ok v, fr, dl⟩ cfg =
        (none, reconcileShell cfg fs)) ∧
    (∀ (fs : ShellFs) (v e : String) (fr : Except String String) (cfg : CliConfig),
      check_shell_installed fs = true →
      needs_update (get_component_version cfg "shell") v = true →
      update_run SourceKind.git ⟨fs, Except.ok v, fr, Except.error e⟩ cfg =
        (some 1, reconcileShell cfg fs)) ∧
    (∀ (fs : ShellFs) (v : String) (fr : Except String String) (cfg : CliConfig),
      check_shell_installed fs = true →
      needs_update (get_component_version cfg "shell") v = true →
      update_run SourceKind.git ⟨fs, Except.ok v, fr, Except.ok ()⟩ cfg =
        (none, set_component_version
          (set_component_source (reconcileShell cfg fs) "shell" SourceKind.git)
          "shell" v)) ∧
    (∀ (cfg : CliConfig) (v e : String) (fg : Except String String),
      install_run SourceKind.release ⟨Except.ok (), fg, Except.ok v, Except.error e⟩ cfg =
        (some 1, cfg)) ∧
    (∀ (fs : ShellFs) (e : String) (fg : Except String String) (dl : Except String Unit)
        (cfg : CliConfig),
      check_shell_installed fs = true →
      update_run SourceKind.release ⟨fs, fg, Except.error e, dl⟩ cfg =
        (some 1, reconcileShell cfg fs)) ∧
    (∀ (fs : ShellFs) (v : String) (fg : Except String String) (dl : Except String Unit)
        (cfg : CliConfig),
      check_shell_installed fs = true →
      needs_update (get_component_version cfg "shell") v = false →
      update_run SourceKind.release ⟨fs, fg, Except.ok v, dl⟩ cfg =
        (none, reconcileShell cfg fs)) ∧
    (∀ (fs : ShellFs) (v e : String) (fg : Except String String) (cfg : CliConfig),
      check_shell_installed fs = true →
      needs_update (get_component_version cfg "shell") v = true →
      update_run SourceKind.release ⟨fs, fg, Except.ok v, Except.error e⟩ cfg =
        (some 1, reconcileShell cfg fs)) ∧
    (∀ (fs : ShellFs) (v : String) (fg : Except String String) (cfg : CliConfig),
      check_shell_installed fs = true →
      needs_update (get_component_version cfg "shell") v = true →
      update_run SourceKind.release ⟨fs, fg, Except.ok v, Except.ok ()⟩ cfg =
        (none, set_component_version
          (set_component_source (reconcileShell cfg fs) "shell" SourceKind.release)
          "shell" v)) := by
  refine ⟨?_, ?_, ?_, ?_, ?_, ?_, ?_, ?_, ?_, ?_, ?_, ?_, ?_, ?_, ?_, ?_⟩
  · intro src cfg e fg fr dl
    cases src <;> rfl
  · intro cfg e fr dl; rfl
  · intro cfg e fg dl; rfl
  · intro cfg v e fr; rfl
  · intro cfg v fr; rfl
  · intro cfg v fg; rfl
  · intro src fs fg fr dl cfg h
    have hii : is_component_installed cfg "shell" fs = false := by
      rw [show is_component_installed cfg "shell" fs = check_shell_installed fs from rfl]
      exact h
    have hrec : reconcileShell cfg fs = cfg := by
      show (if check_shell_installed fs && !installedFlag cfg "shell"
            then set_installed cfg "shell" true else cfg) = cfg
      rw [h]
      simp
    simp [update_run, hii, hrec]
  · intro fs e fr dl cfg h
    have hii : is_component_installed cfg "shell" fs = true := by
      rw [show is_component_installed cfg "shell" fs = check_shell_installed fs from rfl]
      exact h
    simp [update_run, hii]
  · intro fs v fr dl cfg h hnu
    have hii : is_component_installed cfg "shell" fs = true := by
      rw [show is_component_installed cfg "shell" fs = check_shell_installed fs from rfl]
      exact h
    simp [update_run, hii, hnu]
  · intro fs v e fr cfg h hnu
    have hii : is_component_installed cfg "shell" fs = true := by
      rw [show is_component_installed cfg "shell" fs = check_shell_installed fs from rfl]
      exact h
    simp [update_run, hii, hnu]
  · intro fs v fr cfg h hnu
    have hii : is_component_installed cfg "shell" fs = true := by
      rw [show is_component_installed cfg "shell" fs = check_shell_installed fs from rfl]
      exact h
    simp [update_run, hii, hnu]
  · intro cfg v e fg; rfl
  · intro fs e fg dl cfg h
    have hii : is_component_installed cfg "shell" fs = true := by
      rw [show is_component_installed cfg "shell" fs = check_shell_installed fs from rfl]
      exact h
    simp [update_run, hii]
  · intro fs v fg dl cfg h hnu
    have hii : is_component_installed cfg "shell" fs = true := by
      rw [show is_component_installed cfg "shell" fs = check_shell_installed fs from rfl]
      exact h
    simp [update_run, hii, hnu]
  · intro fs v e fg cfg h hnu
    have hii : is_component_installed cfg "shell" fs = true := by
      rw [show is_component_installed cfg "shell" fs = check_shell_installed fs from rfl]
      exact h
    simp [update_run, hii, hnu]
  · intro fs v fg cfg h hnu
    have hii : is_component_installed cfg "shell" fs = true := by
      rw [show is_component_installed cfg "shell" fs = check_shell_installed fs from rfl]
      exact h
    simp [update_run, hii, hnu]

/-- Witness for C5: a dependency failure, a not-installed early exit, an
up-to-date early return on the git source, and an up-to-date early return on
the release source, at concrete inputs. -/
theorem C5_persist_only_after_success_witness :
    install_run SourceKind.git
      ⟨Except.error "deps", Except.ok "s", Except.ok "t", Except.ok ()⟩ [] = (some 1, []) ∧
    update_run SourceKind.git
      ⟨⟨false, "", false⟩, Except.ok "abc", Except.ok "t", Except.ok ()⟩ [] = (some 1, []) ∧
    update_run SourceKind.git
      ⟨⟨true, "", false⟩, Except.ok "abc", Except.ok "t", Except.ok ()⟩
      [("shell", ⟨SourceKind.git, true, some "abc"⟩)] =
      (none, reconcileShell [("shell", ⟨SourceKind.git, true, some "abc"⟩)] ⟨true, "", false⟩) ∧
    update_run SourceKind.release
      ⟨⟨true, "", false⟩, Except.ok "x", Except.ok "v1.2.0", Except.ok ()⟩
      [("shell", ⟨SourceKind.release, true, some "v1.2.0"⟩)] =
      (none, reconcileShell [("shell", ⟨SourceKind.release, true, some "v1.2.0"⟩)]
        ⟨true, "", false⟩) :=
  ⟨C5_persist_only_after_success.1 SourceKind.git [] "deps" (Except.ok "s") (Except.ok "t")
     (Except.ok ()),
   C5_persist_only_after_success.2.2.2.2.2.2.1 SourceKind.git ⟨false, "", false⟩
     (Except.ok "abc") (Except.ok "t") (Except.ok ()) [] (by decide),
   C5_persist_only_after_success.2.2.2.2.2.2.2.2.1 ⟨true, "", false⟩ "abc" (Except.ok "t")
     (Except.ok ()) [("shell", ⟨SourceKind.git, true, some "abc"⟩)] (by decide) (by decide),
   C5_persist_only_after_success.2.2.2.2.2.2.2.2.2.2.2.2.2.1 ⟨true, "", false⟩ "v1.2.0"
     (Except.ok "x") (Except.ok ())
     [("shell", ⟨SourceKind.release, true, some "v1.2.0"⟩)] (by decide) (by decide)⟩

/-- Counterexample for C5 as stated: with a filesystem copy present but a
record saying `installed = false`, an update whose fetch fails still exits
with the record's installed flag rewritten to true on disk — the persisted
record is not left unchanged by the failing run. -/
theorem C5_counterexample :
    update_run SourceKind.release
      ⟨⟨true, "", false⟩, Except.error "net", Except.error "net", Except.ok ()⟩
      [("shell", ⟨SourceKind.release, false, some "v1"⟩)] =
      (some 1, [("shell", ⟨SourceKind.release, true, some "v1"⟩)]) ∧
    [("shell", (⟨SourceKind.release, true, some "v1"⟩ : ComponentConfig))] ≠
      [("shell", (⟨SourceKind.release, false, some "v1"⟩ : ComponentConfig))] := by
  constructor
  · decide
  · decide

/-- Claim C7: whenever any dependency is unavailable the whole per-family
installation fails after reporting the full unavailable list, and a
dependency failure aborts the install command before any download; the single
exception is Fedora with `quickshell` unavailable, where an accepted and
successful COPR enable moves `quickshell` into the to-install list, while a
declined prompt or a failed enable leaves the overall failure standing. -/
theorem C7_unavailable_dependencies_fail :
    (∀ (pm : PackageMap) (env : ArchEnv),
      (partitionPkgs pm env.pacmanInstalled).2 ≠ [] →
      install_arch_packages pm env =
        ⟨Except.error "Some required packages are not available in repositories",
         (partitionPkgs pm env.pacmanInstalled).2, []⟩) ∧
    (∀ (pm : PackageMap) (env : FedoraEnv),
      "quickshell" ∉ (partitionPkgs pm env.rpmInstalled).2 →
      (partitionPkgs pm env.rpmInstalled).2 ≠ [] →
      install_fedora_packages pm env =
        ⟨Except.error "Some required packages are not available in repositories",
         (partitionPkgs pm env.rpmInstalled).2, []⟩) ∧
    (∀ (pm : PackageMap) (env : FedoraEnv),
      "quickshell" ∈ (partitionPkgs pm env.rpmInstalled).2 →
      env.promptAccept = false →
      install_fedora_packages pm env =
        ⟨Except.error "Some required packages are not available in repositories",
         (partitionPkgs pm env.rpmInstalled).2, []⟩) ∧
    (∀ (pm : PackageMap) (env : FedoraEnv),
      "quickshell" ∈ (partitionPkgs pm env.rpmInstalled).2 →
      env.promptAccept = true → env.coprSuccess = false →
      install_fedora_packages pm env =
        ⟨Except.error "Failed to enable COPR repository", [], []⟩) ∧
    (∀ (pm : PackageMap) (env : FedoraEnv),
      "quickshell" ∈ (partitionPkgs pm env.rpmInstalled).2 →
      env.promptAccept = true → env.coprSuccess = true →
      ((partitionPkgs pm env.rpmInstalled).2.filter (fun x => x != "quickshell")) = [] →
      env.dnfSuccess = true →
      install_fedora_packages pm env =
        ⟨Except.ok (), [], (partitionPkgs pm env.rpmInstalled).1 ++ ["quickshell"]⟩) ∧
    (∀ (pm : PackageMap) (env : FedoraEnv),
      "quickshell" ∈ (partitionPkgs pm env.rpmInstalled).2 →
      env.promptAccept = true → env.coprSuccess = true →
      ((partitionPkgs pm env.rpmInstalled).2.filter (fun x => x != "quickshell")) ≠ [] →
      install_fedora_packages pm env =
        ⟨Except.error "Some required packages are not available in repositories",
         (partitionPkgs pm env.rpmInstalled).2.filter (fun x => x != "quickshell"), []⟩) ∧
    (∀ (src : SourceKind) (cfg : CliConfig) (e : String) (fg fr : Except String String)
        (dl : Except String Unit),
      install_run src ⟨Except.error e, fg, fr, dl⟩ cfg = (some 1, cfg)) := by
  refine ⟨?_, ?_, ?_, ?_, ?_, ?_, ?_⟩
  · intro pm env h
    have hm : (partitionPkgs pm env.pacmanInstalled).2.isEmpty = false := by simpa using h
    simp [install_arch_packages, hm]
  · intro pm env hq h
    simp [install_fedora_packages, hq, h]
  · intro pm env hq hacc
    simp [install_fedora_packages, hq, hacc, List.ne_nil_of_mem hq]
  · intro pm env hq hacc hcopr
    simp [install_fedora_packages, hq, hacc, hcopr]
  · intro pm env hq hacc hcopr hfilter hdnf
    simp [install_fedora_packages, hq, hacc, hcopr, hfilter, hdnf]
  · intro pm env hq hacc hcopr hfilter
    simp [install_fedora_packages, hq, hacc, hcopr, hfilter]
  · intro src cfg e fg fr dl
    cases src <;> rfl

/-- Witness for C7 on the fixed Fedora mapping: an Arch-style run with an
unavailable package fails reporting it, a declined COPR prompt leaves the
failure standing, and an accepted successful enable moves `quickshell` into
the installed package list. -/
theorem C7_unavailable_dependencies_fail_witness :
    install_arch_packages fedoraPackageMap ⟨some "yay", fun _ => false, true⟩ =
      ⟨Except.error "Some required packages are not available in repositories",
       ["quickshell"], []⟩ ∧
    install_fedora_packages fedoraPackageMap ⟨fun _ => false, false, true, true⟩ =
      ⟨Except.error "Some required packages are not available in repositories",
       ["quickshell"], []⟩ ∧
    install_fedora_packages fedoraPackageMap ⟨fun _ => false, true, true, true⟩ =
      ⟨Except.ok (), [], ["gpu-screen-recorder", "brightnessctl", "quickshell"]⟩ :=
  ⟨C7_unavailable_dependencies_fail.1 fedoraPackageMap
     ⟨some "yay", fun _ => false, true⟩ (by decide),
   C7_unavailable_dependencies_fail.2.2.1 fedoraPackageMap
     ⟨fun _ => false, false, true, true⟩ (by decide) rfl,
   C7_unavailable_dependencies_fail.2.2.2.2.1 fedoraPackageMap
     ⟨fun _ => false, true, true, true⟩ (by decide) rfl rfl (by decide) rfl⟩

/-- Claim C6: distribution detection is a pure function of the metadata fields
and marker files. An `ID` in the allow-list decides first (`ID=arch` gives the
Arch family for every `ID_LIKE`), otherwise the `ID_LIKE` substring checks
decide (`ID=linuxmint, ID_LIKE=ubuntu` gives the Debian family), otherwise the
marker files decide, and with nothing matching the result is Unknown. -/
theorem C6_detect_distribution_pure :
    (∀ (idLike : Option (List Char)) (m : Markers),
      detectFromFields (some (lit "arch")) idLike m = Distribution.arch) ∧
    (∀ m : Markers,
      detectFromFields (some (lit "linuxmint")) (some (lit "ubuntu")) m =
        Distribution.debian) ∧
    (∀ (id idLike : Option (List Char)) (m : Markers),
      id.bind matchId = none → idLike.bind matchIdLike = none →
      detectFromFields id idLike m = markerFallback m) ∧
    (∀ (content : List Char) (m : Markers),
      detect_distribution (some content) m =
        detectFromFields (parseOsRelease content).1 (parseOsRelease content).2 m) ∧
    (∀ m : Markers, detect_distribution none m = markerFallback m) ∧
    detect_distribution none ⟨false, false, false, false, false⟩ = Distribution.unknown ∧
    (∀ m : Markers,
      detect_distribution (some (lit "ID=arch\nID_LIKE=debian")) m = Distribution.arch) ∧
    (∀ m : Markers,
      detect_distribution (some (lit "ID=linuxmint\nID_LIKE=ubuntu")) m =
        Distribution.debian) := by
  refine ⟨fun idLike m => rfl, fun m => rfl, ?_, fun content m => rfl, fun m => rfl, rfl,
    fun m => rfl, fun m => rfl⟩
  intro id idLike m h1 h2
  simp [detectFromFields, h1, h2]

/-- Witness for C6: the marker-fallback conjunct at concrete inputs. -/
theorem C6_detect_distribution_pure_witness :
    detectFromFields (some (lit "slackware")) (some (lit "suse"))
      ⟨false, false, false, true, false⟩ =
      markerFallback ⟨false, false, false, true, false⟩ :=
  C6_detect_distribution_pure.2.2.1 (some (lit "slackware")) (some (lit "suse"))
    ⟨false, false, false, true, false⟩ (by decide) (by decide)

theorem removeName_eq_self (n : String) :
    ∀ (es : List Entry), (∀ e ∈ es, e.name ≠ n) → removeName n es = es := by
  intro es
  induction es with
  | nil => intro _; rfl
  | cons e rest ih =>
    intro h
    have h1 : (e.name != n) = true := by
      simpa [bne_iff_ne] using h e (by simp)
    have h2 : ∀ x ∈ rest, x.name ≠ n := fun x hx => h x (by simp [hx])
    simp only [removeName, List.filter_cons, h1, if_true]
    rw [show List.filter (fun e => e.name != n) rest = removeName n rest from rfl, ih h2]

theorem moveAllInto_disjoint :
    ∀ (cs target : List Entry),
      (∀ c ∈ cs, c.name ∉ target.map Entry.name) → (cs.map Entry.name).Nodup →
      moveAllInto cs target = target ++ cs := by
  intro cs
  induction cs with
  | nil => intro target _ _; simp [moveAllInto]
  | cons c cs ih =>
    intro target hdis hnd
    have hc : removeName c.name target = target := by
      refine removeName_eq_self c.name target (fun e he hh => ?_)
      exact hdis c (by simp) (hh ▸ List.mem_map_of_mem Entry.name he)
    have hnd' : c.name ∉ cs.map Entry.name ∧ (cs.map Entry.name).Nodup := by
      rw [List.map_cons, List.nodup_cons] at hnd
      exact hnd
    have hnotin : c.name ∉ cs.map Entry.name := hnd'.1
    have hdis2 : ∀ x ∈ cs, x.name ∉ (target ++ [c]).map Entry.name := by
      intro x hx
      simp only [List.map_append, List.mem_append, List.map_cons, List.map_nil,
        List.mem_singleton]
      rintro (hmem | hname)
      · exact hdis x (by simp [hx]) hmem
      · exact hnotin (hname ▸ List.mem_map_of_mem Entry.name hx)
    have hnd2 : (cs.map Entry.name).Nodup := hnd'.2
    calc moveAllInto (c :: cs) target
        = moveAllInto cs (removeName c.name target ++ [c]) := by
          simp [moveAllInto, List.foldl_cons]
      _ = moveAllInto cs (target ++ [c]) := by rw [hc]
      _ = (target ++ [c]) ++ cs := ih (target ++ [c]) hdis2 hnd2
      _ = target ++ (c :: cs) := by simp

/-- Claim C3 (amended): if an entry named `noctalia-shell-main` exists at top
level and is a directory, its children are hoisted one level into the target
and the wrapper removed; if it exists but is not a directory, the
`fs::read_dir` on it fails and extraction errors out instead of leaving the
tree as extracted; otherwise a single top-level directory of any name is
flattened the same way; in every remaining case (multiple entries, or a
single non-directory entry not named like the wrapper) the tree is left
exactly as extracted. -/
theorem C3_extract_normalization :
    (∀ (entries cs : List Entry) (n : String),
      entries.find? (fun e => e.name == wrapperDirName) = some (Entry.dir n cs) →
      (∀ c ∈ cs, c.name ∉ entries.map Entry.name) →
      (cs.map Entry.name).Nodup →
      extract_normalize entries =
        Except.ok (removeName wrapperDirName entries ++ cs)) ∧
    (∀ (n : String) (cs : List Entry),
      n ≠ wrapperDirName →
      (∀ c ∈ cs, c.name ≠ n) →
      (cs.map Entry.name).Nodup →
      extract_normalize [Entry.dir n cs] = Except.ok cs) ∧
    (∀ entries : List Entry,
      entries.find? (fun e => e.name == wrapperDirName) = none →
      (∀ (n : String) (cs : List Entry), entries ≠ [Entry.dir n cs]) →
      extract_normalize entries = Except.ok entries) ∧
    (∀ (entries : List Entry) (m : String),
      entries.find? (fun e => e.name == wrapperDirName) = some (Entry.file m) →
      extract_normalize entries = Except.error "read_dir: not a directory") := by
  refine ⟨?_, ?_, ?_, ?_⟩
  · intro entries cs n hfind hdis hnd
    have hmem : Entry.dir n cs ∈ entries := List.mem_of_find?_eq_some hfind
    have hnwr : n = wrapperDirName := by
      simpa [Entry.name] using List.find?_some hfind
    have hcs : removeName wrapperDirName cs = cs := by
      refine removeName_eq_self wrapperDirName cs (fun c hc hh => ?_)
      refine hdis c hc ?_
      rw [hh, ← hnwr]
      exact List.mem_map_of_mem Entry.name (by simpa [Entry.name] using hmem)
    calc extract_normalize entries
        = Except.ok (removeName wrapperDirName (moveAllInto cs entries)) := by
          simp only [extract_normalize, hfind]
      _ = Except.ok (removeName wrapperDirName (entries ++ cs)) := by
          rw [moveAllInto_disjoint cs entries hdis hnd]
      _ = Except.ok (removeName wrapperDirName entries ++ removeName wrapperDirName cs) := by
          simp [removeName, List.filter_append]
      _ = Except.ok (removeName wrapperDirName entries ++ cs) := by rw [hcs]
  · intro n cs hne hdisn hnd
    have hb : (n == wrapperDirName) = false := by simpa using hne
    have hfind : [Entry.dir n cs].find? (fun e => e.name == wrapperDirName) = none := by
      simp [List.find?, Entry.name, hb]
    have hdis : ∀ c ∈ cs, c.name ∉ ([Entry.dir n cs]).map Entry.name := by
      intro c hc
      simpa [Entry.name] using hdisn c hc
    have h1 : removeName n [Entry.dir n cs] = [] := by
      simp [removeName, List.filter_cons, Entry.name]
    calc extract_normalize [Entry.dir n cs]
        = Except.ok (removeName n (moveAllInto cs [Entry.dir n cs])) := by
          simp only [extract_normalize, hfind]
      _ = Except.ok (removeName n ([Entry.dir n cs] ++ cs)) := by
          rw [moveAllInto_disjoint cs [Entry.dir n cs] hdis hnd]
      _ = Except.ok (removeName n cs) := by
          simp [removeName, List.filter_cons, Entry.name]
      _ = Except.ok cs := by
          rw [removeName_eq_self n cs hdisn]
  · intro entries hfind hshape
    simp only [extract_normalize, hfind]
  · intro entries m hfind
    simp only [extract_normalize, hfind]

/-- Witness for C3: hoisting a wrapper directory next to a sibling, flattening
a singleton directory of arbitrary name, leaving a multi-entry tree untouched,
and the error on a non-directory wrapper entry, all at concrete inputs. -/
theorem C3_extract_normalization_witness :
    extract_normalize [Entry.file "x", Entry.dir "noctalia-shell-main" [Entry.file "a"]] =
      Except.ok
        (removeName wrapperDirName
          [Entry.file "x", Entry.dir "noctalia-shell-main" [Entry.file "a"]] ++
         [Entry.file "a"]) ∧
    extract_normalize [Entry.dir "noctalia-shell-v1.2.0" [Entry.file "a", Entry.file "b"]] =
      Except.ok [Entry.file "a", Entry.file "b"] ∧
    extract_normalize [Entry.file "x", Entry.file "y"] =
      Except.ok [Entry.file "x", Entry.file "y"] ∧
    extract_normalize [Entry.file "noctalia-shell-main"] =
      Except.error "read_dir: not a directory" :=
  ⟨C3_extract_normalization.1
     [Entry.file "x", Entry.dir "noctalia-shell-main" [Entry.file "a"]]
     [Entry.file "a"] "noctalia-shell-main" rfl
     (by intro c hc; simp only [List.mem_singleton] at hc; subst hc; decide)
     (by decide),
   C3_extract_normalization.2.1 "noctalia-shell-v1.2.0" [Entry.file "a", Entry.file "b"]
     (by decide)
     (by intro c hc
         simp only [List.mem_cons, List.not_mem_nil, or_false] at hc
         rcases hc with h | h <;> subst h <;> decide)
     (by decide),
   C3_extract_normalization.2.2.1 [Entry.file "x", Entry.file "y"] rfl
     (by intro n cs h; simp at h),
   C3_extract_normalization.2.2.2 [Entry.file "noctalia-shell-main"] "noctalia-shell-main"
     rfl⟩

/-- Counterexample for C3 as stated: a single non-directory top-level entry
named `noctalia-shell-main` is not left as extracted — the extraction step
fails with an error instead. -/
theorem C3_counterexample :
    extract_normalize [Entry.file "noctalia-shell-main"] ≠
      Except.ok [Entry.file "noctalia-shell-main"] := by
  intro h
  rw [show extract_normalize [Entry.file "noctalia-shell-main"] =
    Except.error "read_dir: not a directory" from rfl] at h
  exact Except.noConfusion h

theorem shLex_inq_close (rest : List Char) (f : List Char) :
    shLex (qc :: rest) true (some f) = shLex rest false (some f) := by
  simp [shLex]

theorem shLex_inq_plain (c : Char) (rest : List Char) (f : List Char) (h : c ≠ qc) :
    shLex (c :: rest) true (some f) = shLex rest true (some (f ++ [c])) := by
  simp [shLex, h]

theorem shLex_out_quote_none (rest : List Char) :
    shLex (qc :: rest) false none = shLex rest true (some []) := by
  simp [shLex]

theorem shLex_out_quote_some (rest : List Char) (f : List Char) :
    shLex (qc :: rest) false (some f) = shLex rest true (some f) := by
  simp [shLex]

theorem shLex_out_space_some (rest : List Char) (f : List Char) :
    shLex (' ' :: rest) false (some f) =
      (shLex rest false none).map (fun t => f :: t) := by
  simp [shLex, show (' ' : Char) ≠ qc from by decide]

theorem shLex_out_plain_none (c : Char) (rest : List Char) (h1 : c ≠ qc) (h2 : c ≠ ' ') :
    shLex (c :: rest) false none = shLex rest false (some [c]) := by
  simp [shLex, h1, h2]

theorem shLex_out_plain_some (c : Char) (rest : List Char) (f : List Char)
    (h1 : c ≠ qc) (h2 : c ≠ ' ') :
    shLex (c :: rest) false (some f) = shLex rest false (some (f ++ [c])) := by
  simp [shLex, h1, h2]

theorem shLex_quoted_run :
    ∀ (l : List Char) (f rest : List Char), qc ∉ l →
      shLex (l ++ qc :: rest) true (some f) = shLex rest false (some (f ++ l)) := by
  intro l
  induction l with
  | nil => intro f rest _; simp [shLex_inq_close]
  | cons c l ih =>
    intro f rest h
    have hc : c ≠ qc := fun hh => h (by simp [hh])
    rw [List.cons_append, shLex_inq_plain c _ f hc,
      ih (f ++ [c]) rest (fun hh => h (by simp [hh]))]
    simp

theorem shLex_plain_run :
    ∀ (l : List Char) (f rest : List Char), (∀ c ∈ l, c ≠ qc ∧ c ≠ ' ') →
      shLex (l ++ rest) false (some f) = shLex rest false (some (f ++ l)) := by
  intro l
  induction l with
  | nil => intro f rest _; simp
  | cons c l ih =>
    intro f rest h
    rw [List.cons_append, shLex_out_plain_some c _ f (h c (by simp)).1 (h c (by simp)).2,
      ih (f ++ [c]) rest (fun x hx => h x (by simp [hx]))]
    simp

theorem shFields_composeUpdateCmd (temp target : String)
    (ht : qc ∉ temp.data) (hg : qc ∉ target.data) :
    shFields (composeUpdateCmd temp target) =
      some [['c', 'p'], ['-', 'r'], temp.data ++ ['/', '*'], target.data ++ ['/'],
            ['&', '&'], ['r', 'm'], ['-', 'r', 'f'], temp.data] := by
  have hd : (composeUpdateCmd temp target).data =
      'c' :: 'p' :: ' ' :: '-' :: 'r' :: ' ' :: qc ::
        (temp.data ++ (qc :: '/' :: '*' :: ' ' :: qc ::
          (target.data ++ (qc :: '/' :: ' ' :: '&' :: '&' :: ' ' ::
            'r' :: 'm' :: ' ' :: '-' :: 'r' :: 'f' :: ' ' :: qc ::
              (temp.data ++ [qc]))))) := by
    simp [composeUpdateCmd, String.data_append, sqS, List.append_assoc]
  rw [shFields, hd]
  rw [shLex_out_plain_none 'c' _ (by decide) (by decide)]
  rw [shLex_out_plain_some 'p' _ _ (by decide) (by decide)]
  rw [shLex_out_space_some]
  rw [shLex_out_plain_none '-' _ (by decide) (by decide)]
  rw [shLex_out_plain_some 'r' _ _ (by decide) (by decide)]
  rw [shLex_out_space_some]
  rw [shLex_out_quote_none]
  rw [shLex_quoted_run temp.data [] _ ht]
  rw [shLex_out_plain_some '/' _ _ (by decide) (by decide)]
  rw [shLex_out_plain_some '*' _ _ (by decide) (by decide)]
  rw [shLex_out_space_some]
  rw [shLex_out_quote_none]
  rw [shLex_quoted_run target.data [] _ hg]
  rw [shLex_out_plain_some '/' _ _ (by decide) (by decide)]
  rw [shLex_out_space_some]
  rw [shLex_out_plain_none '&' _ (by decide) (by decide)]
  rw [shLex_out_plain_some '&' _ _ (by decide) (by decide)]
  rw [shLex_out_space_some]
  rw [shLex_out_plain_none 'r' _ (by decide) (by decide)]
  rw [shLex_out_plain_some 'm' _ _ (by decide) (by decide)]
  rw [shLex_out_space_some]
  rw [shLex_out_plain_none '-' _ (by decide) (by decide)]
  rw [shLex_out_plain_some 'r' _ _ (by decide) (by decide)]
  rw [shLex_out_plain_some 'f' _ _ (by decide) (by decide)]
  rw [shLex_out_space_some]
  rw [shLex_out_quote_none]
  rw [shLex_quoted_run temp.data [] [] ht]
  simp [shLex]

theorem shFields_composeSystemdCmd (svc : String) (hs : qc ∉ svc.data) :
    shFields (composeSystemdCmd svc) =
      some [['m', 'k', 'd', 'i', 'r'], ['-', 'p'], systemdTargetDir.data,
            ['&', '&'], ['c', 'p'], svc.data, systemdTargetFile.data,
            ['&', '&'], ['c', 'h', 'm', 'o', 'd'], ['6', '4', '4'],
            systemdTargetFile.data] := by
  have hdirq : qc ∉ systemdTargetDir.data := by decide
  have hfileq : qc ∉ systemdTargetFile.data := by decide
  have hd : (composeSystemdCmd svc).data =
      'm' :: 'k' :: 'd' :: 'i' :: 'r' :: ' ' :: '-' :: 'p' :: ' ' :: qc ::
        (systemdTargetDir.data ++ (qc :: ' ' :: '&' :: '&' :: ' ' :: 'c' :: 'p' :: ' ' :: qc ::
          (svc.data ++ (qc :: ' ' :: qc ::
            (systemdTargetFile.data ++ (qc :: ' ' :: '&' :: '&' :: ' ' ::
              'c' :: 'h' :: 'm' :: 'o' :: 'd' :: ' ' :: '6' :: '4' :: '4' :: ' ' :: qc ::
                (systemdTargetFile.data ++ [qc]))))))) := by
    simp [composeSystemdCmd, String.data_append, sqS, List.append_assoc]
  rw [shFields, hd]
  rw [shLex_out_plain_none 'm' _ (by decide) (by decide)]
  rw [shLex_out_plain_some 'k' _ _ (by decide) (by decide)]
  rw [shLex_out_plain_some 'd' _ _ (by decide) (by decide)]
  rw [shLex_out_plain_some 'i' _ _ (by decide) (by decide)]
  rw [shLex_out_plain_some 'r' _ _ (by decide) (by decide)]
  rw [shLex_out_space_some]
  rw [shLex_out_plain_none '-' _ (by decide) (by decide)]
  rw [shLex_out_plain_some 'p' _ _ (by decide) (by decide)]
  rw [shLex_out_space_some]
  rw [shLex_out_quote_none]
  rw [shLex_quoted_run systemdTargetDir.data [] _ hdirq]
  rw [shLex_out_space_some]
  rw [shLex_out_plain_none '&' _ (by decide) (by decide)]
  rw [shLex_out_plain_some '&' _ _ (by decide) (by decide)]
  rw [shLex_out_space_some]
  rw [shLex_out_plain_none 'c' _ (by decide) (by decide)]
  rw [shLex_out_plain_some 'p' _ _ (by decide) (by decide)]
  rw [shLex_out_space_some]
  rw [shLex_out_quote_none]
  rw [shLex_quoted_run svc.data [] _ hs]
  rw [shLex_out_space_some]
  rw [shLex_out_quote_none]
  rw [shLex_quoted_run systemdTargetFile.data [] _ hfileq]
  rw [shLex_out_space_some]
  rw [shLex_out_plain_none '&' _ (by decide) (by decide)]
  rw [shLex_out_plain_some '&' _ _ (by decide) (by decide)]
  rw [shLex_out_space_some]
  rw [shLex_out_plain_none 'c' _ (by decide) (by decide)]
  rw [shLex_out_plain_some 'h' _ _ (by decide) (by decide)]
  rw [shLex_out_plain_some 'm' _ _ (by decide) (by decide)]
  rw [shLex_out_plain_some 'o' _ _ (by decide) (by decide)]
  rw [shLex_out_plain_some 'd' _ _ (by decide) (by decide)]
  rw [shLex_out_space_some]
  rw [shLex_out_plain_none '6' _ (by decide) (by decide)]
  rw [shLex_out_plain_some '4' _ _ (by decide) (by decide)]
  rw [shLex_out_plain_some '4' _ _ (by decide) (by decide)]
  rw [shLex_out_space_some]
  rw [shLex_out_quote_none]
  rw [shLex_quoted_run systemdTargetFile.data [] [] hfileq]
  simp [shLex]

theorem posixEscape_eq_self : ∀ (l : List Char), qc ∉ l → posixEscape l = l := by
  intro l
  induction l with
  | nil => intro _; rfl
  | cons c rest ih =>
    intro h
    have hc : c ≠ qc := fun hh => h (by simp [hh])
    simp only [posixEscape, if_neg hc]
    rw [ih (fun hh => h (by simp [hh]))]
    rfl

/-- Claim C8 (amended): every path embedded in the composed elevated commands
is wrapped in plain single quotes with no escaping applied to the path text.
For paths containing no single quote this coincides with the POSIX-escaped
form and the composed command survives shell field splitting with every path
intact; a path containing a single quote breaks the quoting (the claimed
escaping idiom is not applied). -/
theorem C8_elevated_command_quoting (temp target svc : String)
    (ht : qc ∉ temp.data) (hg : qc ∉ target.data) (hs : qc ∉ svc.data) :
    composeUpdateCmd temp target =
      "cp -r " ++ posixQuote temp ++ "/* " ++ posixQuote target ++
        "/ && rm -rf " ++ posixQuote temp ∧
    composeSystemdCmd svc =
      "mkdir -p " ++ posixQuote systemdTargetDir ++ " && cp " ++ posixQuote svc ++
        " " ++ posixQuote systemdTargetFile ++ " && chmod 644 " ++
        posixQuote systemdTargetFile ∧
    shFields (composeUpdateCmd temp target) =
      some [['c', 'p'], ['-', 'r'], temp.data ++ ['/', '*'], target.data ++ ['/'],
            ['&', '&'], ['r', 'm'], ['-', 'r', 'f'], temp.data] ∧
    shFields (composeSystemdCmd svc) =
      some [['m', 'k', 'd', 'i', 'r'], ['-', 'p'], systemdTargetDir.data,
            ['&', '&'], ['c', 'p'], svc.data, systemdTargetFile.data,
            ['&', '&'], ['c', 'h', 'm', 'o', 'd'], ['6', '4', '4'],
            systemdTargetFile.data] := by
  have hdirq : qc ∉ systemdTargetDir.data := by decide
  have hfileq : qc ∉ systemdTargetFile.data := by decide
  refine ⟨?_, ?_, shFields_composeUpdateCmd temp target ht hg,
    shFields_composeSystemdCmd svc hs⟩
  · apply String.ext
    simp [composeUpdateCmd, posixQuote, String.data_append, sqS,
      posixEscape_eq_self temp.data ht, posixEscape_eq_self target.data hg,
      List.append_assoc]
  · apply String.ext
    simp [composeSystemdCmd, posixQuote, String.data_append, sqS,
      posixEscape_eq_self svc.data hs, posixEscape_eq_self systemdTargetDir.data hdirq,
      posixEscape_eq_self systemdTargetFile.data hfileq, List.append_assoc]

/-- Witness for C8 at concrete quote-free paths. -/
theorem C8_elevated_command_quoting_witness :
    composeUpdateCmd "/tmp/noctalia-shell" "/etc/xdg/quickshell/noctalia-shell" =
      "cp -r " ++ posixQuote "/tmp/noctalia-shell" ++ "/* " ++
        posixQuote "/etc/xdg/quickshell/noctalia-shell" ++ "/ && rm -rf " ++
        posixQuote "/tmp/noctalia-shell" ∧
    shFields (composeSystemdCmd "/home/u/svc/noctalia.service") =
      some [['m', 'k', 'd', 'i', 'r'], ['-', 'p'], systemdTargetDir.data,
            ['&', '&'], ['c', 'p'], ("/home/u/svc/noctalia.service" : String).data,
            systemdTargetFile.data, ['&', '&'], ['c', 'h', 'm', 'o', 'd'],
            ['6', '4', '4'], systemdTargetFile.data] :=
  ⟨(C8_elevated_command_quoting "/tmp/noctalia-shell" "/etc/xdg/quickshell/noctalia-shell"
      "/home/u/svc/noctalia.service" (by decide) (by decide) (by decide)).1,
   (C8_elevated_command_quoting "/tmp/noctalia-shell" "/etc/xdg/quickshell/noctalia-shell"
      "/home/u/svc/noctalia.service" (by decide) (by decide) (by decide)).2.2.2⟩

/-- Counterexample for C8 as stated: for a service path containing a single
quote the composed command is not the POSIX-escaped composition the claim
describes, and shell field splitting no longer recovers the path (the lexer
hits an unterminated quote). -/
theorem C8_counterexample :
    composeSystemdCmd ("/tmp/o" ++ sqS ++ "b") ≠
      "mkdir -p " ++ posixQuote systemdTargetDir ++ " && cp " ++
        posixQuote ("/tmp/o" ++ sqS ++ "b") ++ " " ++ posixQuote systemdTargetFile ++
        " && chmod 644 " ++ posixQuote systemdTargetFile ∧
    shFields (composeSystemdCmd ("/tmp/o" ++ sqS ++ "b")) ≠
      some [['m', 'k', 'd', 'i', 'r'], ['-', 'p'], systemdTargetDir.data,
            ['&', '&'], ['c', 'p'], ("/tmp/o" ++ sqS ++ "b" : String).data,
            systemdTargetFile.data, ['&', '&'], ['c', 'h', 'm', 'o', 'd'],
            ['6', '4', '4'], systemdTargetFile.data] := by
  constructor
  · decide
  · decide

theorem unescapeStr_cons_ne (c : Char) (rest : List Char) (h : c ≠ bsl) :
    unescapeStr (c :: rest) = c :: unescapeStr rest := by
  cases rest with
  | nil => simp [unescapeStr, h]
  | cons d rest2 => simp [unescapeStr, h]

theorem unescape_escape : ∀ l : List Char, unescapeStr (escapeStr l) = l := by
  intro l
  induction l with
  | nil => rfl
  | cons c rest ih =>
    by_cases h1 : c = dq
    · subst h1
      simp [escapeStr, escapeChar, unescapeStr, ih,
        show (bsl : Char) = bsl from rfl, show (dq : Char) ≠ 'n' from by decide]
    · by_cases h2 : c = bsl
      · subst h2
        simp [escapeStr, escapeChar, unescapeStr, ih,
          show (bsl : Char) ≠ dq from by decide, show (bsl : Char) ≠ 'n' from by decide]
      · by_cases h3 : c = '\n'
        · subst h3
          simp [escapeStr, escapeChar, unescapeStr, ih,
            show ('\n' : Char) ≠ dq from by decide, show ('\n' : Char) ≠ bsl from by decide]
        · simp only [escapeStr, escapeChar, if_neg h1, if_neg h2, if_neg h3,
            List.singleton_append]
          rw [unescapeStr_cons_ne c _ h2, ih]

theorem nl_not_mem_escapeChar : ∀ c : Char, '\n' ∉ escapeChar c := by
  intro c
  by_cases h1 : c = dq
  · subst h1; decide
  · by_cases h2 : c = bsl
    · subst h2; decide
    · by_cases h3 : c = '\n'
      · subst h3; decide
      · simp only [escapeChar, if_neg h1, if_neg h2, if_neg h3, List.mem_singleton]
        exact fun hh => h3 hh.symm

theorem nl_not_mem_escape : ∀ l : List Char, '\n' ∉ escapeStr l := by
  intro l
  induction l with
  | nil => simp [escapeStr]
  | cons c rest ih =>
    simp only [escapeStr, List.mem_append]
    rintro (h | h)
    · exact nl_not_mem_escapeChar c h
    · exact ih h

theorem splitLines_ne_nil : ∀ cs : List Char, splitLines cs ≠ [] := by
  intro cs
  induction cs with
  | nil => simp [splitLines]
  | cons c rest ih =>
    simp only [splitLines]
    cases hx : splitLines rest with
    | nil => simp
    | cons l ls =>
      by_cases h : c = '\n' <;> simp [h]

theorem splitLines_single : ∀ l : List Char, '\n' ∉ l → splitLines l = [l] := by
  intro l
  induction l with
  | nil => intro _; rfl
  | cons c rest ih =>
    intro h
    have hc : c ≠ '\n' := fun hh => h (by simp [hh])
    have hr : splitLines rest = [rest] := ih (fun hh => h (by simp [hh]))
    simp [splitLines, hr, hc]

theorem splitLines_append :
    ∀ (l : List Char) (rest : List Char), '\n' ∉ l →
      splitLines (l ++ '\n' :: rest) = l :: splitLines rest := by
  intro l
  induction l with
  | nil =>
    intro rest _
    simp only [List.nil_append, splitLines]
    cases hx : splitLines rest with
    | nil => exact absurd hx (splitLines_ne_nil rest)
    | cons a as => simp
  | cons c l ih =>
    intro rest h
    have hc : c ≠ '\n' := fun hh => h (by simp [hh])
    have hr := ih rest (fun hh => h (by simp [hh]))
    rw [List.cons_append]
    simp only [splitLines]
    rw [hr]
    simp [hc]

theorem splitLines_joinLines :
    ∀ lines : List (List Char), lines ≠ [] → (∀ l ∈ lines, '\n' ∉ l) →
      splitLines (joinLines lines) = lines := by
  intro lines
  induction lines with
  | nil => intro h _; exact absurd rfl h
  | cons l ls ih =>
    intro _ hnl
    cases ls with
    | nil => exact splitLines_single l (hnl l (by simp))
    | cons l2 ls2 =>
      rw [show joinLines (l :: l2 :: ls2) = l ++ '\n' :: joinLines (l2 :: ls2) from rfl]
      rw [splitLines_append l _ (hnl l (by simp))]
      rw [ih (by simp) (fun x hx => hnl x (by simp [hx]))]

theorem isPrefixOf_append_self (l1 l2 : List Char) : l1.isPrefixOf (l1 ++ l2) = true :=
  List.isPrefixOf_iff_prefix.mpr (List.prefix_append l1 l2)

theorem isPrefixOf_cons_ne (a b : Char) (as bs : List Char) (h : a ≠ b) :
    (a :: as).isPrefixOf (b :: bs) = false := by
  simp [List.isPrefixOf, h]

theorem parseKeyPart_emitKey (k : List Char) : parseKeyPart (emitKey k) = k := by
  by_cases hb : k ≠ [] ∧ k.all isBareKeyChar
  · rw [emitKey, if_pos hb]
    cases k with
    | nil => exact absurd rfl hb.1
    | cons c rest =>
      have hcall : isBareKeyChar c = true := by
        have h2 := hb.2
        rw [List.all_cons, Bool.and_eq_true] at h2
        exact h2.1
      have hc : c ≠ dq := by
        intro hh
        rw [hh] at hcall
        exact absurd hcall (by decide)
      simp [parseKeyPart, hc]
  · rw [emitKey, if_neg hb]
    simp [parseKeyPart, List.dropLast_concat, unescape_escape]

theorem parseHeaderLine_emit (k : List Char) :
    parseHeaderLine (headerPre ++ (emitKey k ++ [']'])) = some k := by
  rw [parseHeaderLine, if_pos (isPrefixOf_append_self headerPre (emitKey k ++ [']']))]
  rw [List.drop_left]
  simp [List.getLast?_concat, List.dropLast_concat, parseKeyPart_emitKey]

theorem parseHeaderLine_cons_ne (c : Char) (rest : List Char) (h : c ≠ '[') :
    parseHeaderLine (c :: rest) = none := by
  have hpre : headerPre.isPrefixOf (c :: rest) = false := by
    rw [show headerPre = '[' :: lit "components." from rfl]
    exact isPrefixOf_cons_ne '[' c _ _ (fun hh => h hh.symm)
  simp [parseHeaderLine, hpre]

theorem applyFieldLine_source (c : ComponentConfig) (s : SourceKind) :
    applyFieldLine c (lit "source = " ++ dq :: (sourceText s ++ [dq])) =
      { c with source := s } := by
  cases s <;> rfl

theorem applyFieldLine_installed (c : ComponentConfig) (b : Bool) :
    applyFieldLine c (lit "installed = " ++ (if b then lit "true" else lit "false")) =
      { c with installed := b } := by
  cases b <;> rfl

theorem applyFieldLine_version (c : ComponentConfig) (v : String) :
    applyFieldLine c (lit "version = " ++ dq :: (escapeStr v.data ++ [dq])) =
      { c with version := some v } := by
  have hshape : lit "version = " ++ dq :: (escapeStr v.data ++ [dq]) =
      (lit "version = " ++ [dq]) ++ (escapeStr v.data ++ [dq]) := by simp
  have hne1 : ¬(((lit "source = " ++ [dq]).isPrefixOf
      (lit "version = " ++ dq :: (escapeStr v.data ++ [dq]))) = true ∧
      (lit "version = " ++ dq :: (escapeStr v.data ++ [dq])).getLast? = some dq) :=
    fun hc => Bool.noConfusion hc.1
  have hne2 : ¬(((lit "installed = ").isPrefixOf
      (lit "version = " ++ dq :: (escapeStr v.data ++ [dq]))) = true) :=
    fun hc => Bool.noConfusion hc
  simp only [applyFieldLine, if_neg hne1, if_neg hne2]
  rw [hshape, List.drop_left, List.dropLast_concat, unescape_escape]
  have hlast2 : (lit "version = " ++ [dq] ++ (escapeStr v.data ++ [dq])).getLast? =
      some dq := by
    rw [show lit "version = " ++ [dq] ++ (escapeStr v.data ++ [dq]) =
      (lit "version = " ++ [dq] ++ escapeStr v.data) ++ [dq] from by simp]
    exact List.getLast?_concat _
  rw [if_pos ⟨isPrefixOf_append_self (lit "version = " ++ [dq])
    (escapeStr v.data ++ [dq]), hlast2⟩]

theorem notHeader_source (X : List Char) :
    parseHeaderLine (lit "source = " ++ X) = none := by
  rw [show lit "source = " ++ X = 's' :: (lit "ource = " ++ X) from rfl]
  exact parseHeaderLine_cons_ne 's' _ (by decide)

theorem notHeader_installed (X : List Char) :
    parseHeaderLine (lit "installed = " ++ X) = none := by
  rw [show lit "installed = " ++ X = 'i' :: (lit "nstalled = " ++ X) from rfl]
  exact parseHeaderLine_cons_ne 'i' _ (by decide)

theorem notHeader_version (X : List Char) :
    parseHeaderLine (lit "version = " ++ X) = none := by
  rw [show lit "version = " ++ X = 'v' :: (lit "ersion = " ++ X) from rfl]
  exact parseHeaderLine_cons_ne 'v' _ (by decide)

theorem foldl_fields_emit (c : ComponentConfig) :
    List.foldl applyFieldLine {}
      ((lit "source = " ++ dq :: (sourceText c.source ++ [dq])) ::
       (lit "installed = " ++ (if c.installed then lit "true" else lit "false")) ::
       (match c.version with
        | none => []
        | some v => [lit "version = " ++ dq :: (escapeStr v.data ++ [dq])])) = c := by
  obtain ⟨src, inst, ver⟩ := c
  cases ver with
  | none =>
    simp only [List.foldl_cons, List.foldl_nil]
    rw [applyFieldLine_source, applyFieldLine_installed]
  | some v =>
    simp only [List.foldl_cons, List.foldl_nil]
    rw [applyFieldLine_source, applyFieldLine_installed, applyFieldLine_version]

theorem takeWhile_dropWhile_append {α : Type} (p : α → Bool) :
    ∀ (xs ys : List α), (∀ x ∈ xs, p x = true) →
      (ys = [] ∨ ∃ y ys2, ys = y :: ys2 ∧ p y = false) →
      (xs ++ ys).takeWhile p = xs ∧ (xs ++ ys).dropWhile p = ys := by
  intro xs
  induction xs with
  | nil =>
    intro ys _ hys
    rcases hys with rfl | ⟨y, ys2, rfl, hy⟩
    · simp
    · simp [List.takeWhile_cons, List.dropWhile_cons, hy]
  | cons x xs ih =>
    intro ys hall hys
    have hx : p x = true := hall x (by simp)
    have hrec := ih ys (fun a ha => hall a (by simp [ha])) hys
    simp [List.takeWhile_cons, List.dropWhile_cons, hx, hrec.1, hrec.2]

theorem emitLines_cases (cfg : CliConfig) :
    emitLines cfg = [] ∨
      ∃ y ys2, emitLines cfg = y :: ys2 ∧
        ((parseHeaderLine y).isNone : Bool) = false := by
  cases cfg with
  | nil => exact Or.inl rfl
  | cons e rest =>
    right
    refine ⟨headerPre ++ emitKey e.1.data ++ [']'], _, rfl, ?_⟩
    rw [show headerPre ++ emitKey e.1.data ++ [']'] =
      headerPre ++ (emitKey e.1.data ++ [']']) from by simp]
    rw [parseHeaderLine_emit]
    rfl

theorem nl_not_mem_emitKey (k : List Char) : '\n' ∉ emitKey k := by
  by_cases hb : k ≠ [] ∧ k.all isBareKeyChar
  · rw [emitKey, if_pos hb]
    intro hmem
    have := List.all_eq_true.mp hb.2 _ hmem
    exact absurd this (by decide)
  · rw [emitKey, if_neg hb]
    intro hmem
    rcases List.mem_cons.mp hmem with h | h
    · exact absurd h (by decide)
    · rcases List.mem_append.mp h with h2 | h2
      · exact nl_not_mem_escape k h2
      · rw [List.mem_singleton] at h2
        exact absurd h2 (by decide)

theorem nl_not_mem_emitComponent (k : String) (c : ComponentConfig) :
    ∀ l ∈ emitComponent k c, '\n' ∉ l := by
  intro l hl
  simp only [emitComponent, List.mem_cons] at hl
  rcases hl with rfl | rfl | rfl | hl
  · intro hmem
    rcases List.mem_append.mp hmem with h | h
    · rcases List.mem_append.mp h with h2 | h2
      · exact absurd h2 (by decide)
      · exact nl_not_mem_emitKey k.data h2
    · rw [List.mem_singleton] at h
      exact absurd h (by decide)
  · intro hmem
    rcases List.mem_append.mp hmem with h | h
    · exact absurd h (by decide)
    · rcases List.mem_cons.mp h with h2 | h2
      · exact absurd h2 (by decide)
      · rcases List.mem_append.mp h2 with h3 | h3
        · cases hsrc : c.source <;> rw [hsrc] at h3 <;> exact absurd h3 (by decide)
        · rw [List.mem_singleton] at h3
          exact absurd h3 (by decide)
  · intro hmem
    rcases List.mem_append.mp hmem with h | h
    · exact absurd h (by decide)
    · cases hin : c.installed <;> rw [hin] at h <;> exact absurd h (by decide)
  · cases hver : c.version with
    | none => rw [hver] at hl; exact absurd hl (by simp)
    | some v =>
      rw [hver] at hl
      rw [List.mem_singleton] at hl
      subst hl
      intro hmem
      rcases List.mem_append.mp hmem with h | h
      · exact absurd h (by decide)
      · rcases List.mem_cons.mp h with h2 | h2
        · exact absurd h2 (by decide)
        · rcases List.mem_append.mp h2 with h3 | h3
          · exact nl_not_mem_escape v.data h3
          · rw [List.mem_singleton] at h3
            exact absurd h3 (by decide)

theorem nl_not_mem_emitLines :
    ∀ cfg : CliConfig, ∀ l ∈ emitLines cfg, '\n' ∉ l := by
  intro cfg
  induction cfg with
  | nil => intro l hl; exact absurd hl (by simp [emitLines])
  | cons e rest ih =>
    intro l hl
    rw [show emitLines (e :: rest) = emitComponent e.1 e.2 ++ emitLines rest from rfl] at hl
    rcases List.mem_append.mp hl with h | h
    · exact nl_not_mem_emitComponent e.1 e.2 l h
    · exact ih l h

theorem parseComponents_emitLines :
    ∀ cfg : CliConfig, parseComponents (emitLines cfg) = cfg := by
  intro cfg
  induction cfg with
  | nil =>
    rw [show emitLines [] = [] from rfl]
    simp [parseComponents]
  | cons e rest ih =>
    obtain ⟨k, c⟩ := e
    rw [show emitLines ((k, c) :: rest) =
      (headerPre ++ emitKey k.data ++ [']']) ::
        (((lit "source = " ++ dq :: (sourceText c.source ++ [dq])) ::
          (lit "installed = " ++ (if c.installed then lit "true" else lit "false")) ::
          (match c.version with
           | none => []
           | some v => [lit "version = " ++ dq :: (escapeStr v.data ++ [dq])])) ++
         emitLines rest) from rfl]
    have hhead : parseHeaderLine (headerPre ++ emitKey k.data ++ [']']) = some k.data := by
      rw [show headerPre ++ emitKey k.data ++ [']'] =
        headerPre ++ (emitKey k.data ++ [']']) from by simp]
      exact parseHeaderLine_emit k.data
    have hall : ∀ x ∈
        ((lit "source = " ++ dq :: (sourceText c.source ++ [dq])) ::
          (lit "installed = " ++ (if c.installed then lit "true" else lit "false")) ::
          (match c.version with
           | none => []
           | some v => [lit "version = " ++ dq :: (escapeStr v.data ++ [dq])])),
        ((parseHeaderLine x).isNone : Bool) = true := by
      intro x hx
      rcases List.mem_cons.mp hx with rfl | hx2
      · rw [notHeader_source]; rfl
      · rcases List.mem_cons.mp hx2 with rfl | hx3
        · rw [notHeader_installed]; rfl
        · cases hv : c.version with
          | none => rw [hv] at hx3; exact absurd hx3 (by simp)
          | some v =>
            rw [hv] at hx3
            rw [List.mem_singleton] at hx3
            subst hx3
            rw [notHeader_version]
            rfl
    have hsplit := takeWhile_dropWhile_append
      (fun l2 => ((parseHeaderLine l2).isNone : Bool))
      ((lit "source = " ++ dq :: (sourceText c.source ++ [dq])) ::
        (lit "installed = " ++ (if c.installed then lit "true" else lit "false")) ::
        (match c.version with
         | none => []
         | some v => [lit "version = " ++ dq :: (escapeStr v.data ++ [dq])]))
      (emitLines rest) hall (emitLines_cases rest)
    simp only [parseComponents, hhead]
    rw [hsplit.1, hsplit.2, foldl_fields_emit, ih]

/-- Claim C9: round trip. Serializing any ConfigState with `save` and parsing
the document back as `load` does yields the identical component map — every
component's source, installed flag, and optional version are preserved. -/
theorem C9_config_roundtrip : ∀ cfg : CliConfig, loadConfig (emitConfig cfg) = cfg := by
  intro cfg
  rw [loadConfig, emitConfig]
  cases cfg with
  | nil =>
    rw [show joinLines (emitLines []) = [] from rfl,
        show splitLines [] = [[]] from rfl]
    have h1 : parseHeaderLine [] = none := rfl
    simp [parseComponents, h1]
  | cons e rest =>
    rw [splitLines_joinLines (emitLines (e :: rest))
      (by
        rw [show emitLines (e :: rest) =
          (headerPre ++ emitKey e.1.data ++ [']']) ::
            (((lit "source = " ++ dq :: (sourceText e.2.source ++ [dq])) ::
              (lit "installed = " ++
                (if e.2.installed then lit "true" else lit "false")) ::
              (match e.2.version with
               | none => []
               | some v => [lit "version = " ++ dq :: (escapeStr v.data ++ [dq])])) ++
             emitLines rest) from rfl]
        simp)
      (nl_not_mem_emitLines (e :: rest))]
    exact parseComponents_emitLines (e :: rest)
